import Mathlib

/-!
Verification development for the stock screening analytics core
(`stock_screener.py`).  The Python analytics are embedded shallowly:

* prices, volumes and averages are modelled as exact rationals (`ℚ`);
* a pandas `Series` of floats that may contain `NaN` ("not yet
  available" moving-average entries) is modelled as `List (Option ℚ)`,
  with `none` standing for `NaN`; IEEE comparisons against `NaN` are
  always false, which the `Option`-aware comparison helpers mirror;
* a pandas `DataFrame` of daily bars is modelled as a `List PricePoint`
  together with the derived columns the screener attaches to it
  (`Frame`);
* fallible library calls are modelled with `Except`.
-/

/-- One daily bar of a price history: the row type of the `DataFrame`
returned by the data provider.  Dates are abstract tags (`ℕ`), strictly
increasing in a well-formed series. -/
structure PricePoint where
  date : ℕ
  openPrice : ℚ
  high : ℚ
  low : ℚ
  close : ℚ
  volume : ℚ
deriving Repr, DecidableEq

/-- Read entry `i` of a float series that may hold `NaN` values
(`ma.iloc[i]`); out of range or `NaN` both yield `none`. -/
def iget (xs : List (Option ℚ)) (i : ℕ) : Option ℚ :=
  match xs[i]? with
  | some v => v
  | none => none

/-- IEEE-style `<` on possibly-`NaN` values: any comparison against
`NaN` is false. -/
def optLt (a b : Option ℚ) : Bool :=
  match a, b with
  | some x, some y => x < y
  | _, _ => false

/-- IEEE-style `>=` on possibly-`NaN` values: any comparison against
`NaN` is false. -/
def optGe (a b : Option ℚ) : Bool :=
  match a, b with
  | some x, some y => y ≤ x
  | _, _ => false

/-- `some` the list of values when every entry is defined, `none` as
soon as one entry is `NaN`. -/
def allSome : List (Option ℚ) → Option (List ℚ)
  | [] => some []
  | none :: _ => none
  | some x :: rest => (allSome rest).map (x :: ·)

/-- `calculate_ma`: embedding of `prices.rolling(window=period).mean()`.
Entry `i` is the mean of the trailing `period`-point window ending at
`i` when that many observations exist (pandas defaults `min_periods`
to the window size and additionally requires a non-empty window before
dividing), and `NaN` (`none`) otherwise. -/
def calculate_ma (prices : List ℚ) (period : ℕ) : List (Option ℚ) :=
  (List.range prices.length).map (fun i =>
    if period ≤ i + 1 ∧ 0 < period then
      some ((((prices.take (i + 1)).drop (i + 1 - period)).sum) / (period : ℚ))
    else none)

/-- `calculate_ma` as called with an arbitrary integer `period`:
pandas validates the rolling window with
`if not is_integer(window) or window < 0: raise ValueError(...)`,
so a negative period raises and any other period is passed through. -/
def calculate_ma_checked (prices : List ℚ) (period : ℤ) :
    Except String (List (Option ℚ)) :=
  if period < 0 then
    Except.error "window must be an integer 0 or greater"
  else
    Except.ok (calculate_ma prices period.toNat)

/-- Exact value of `np.polyfit(np.arange(n), ys, 1)[0]`: the ordinary
least-squares slope of `ys` against the index sequence `0 .. n-1`,
written through the normal equations (in exact arithmetic the degree-1
least-squares fit is unique for `n ≥ 2`). -/
def ols_slope (ys : List ℚ) : ℚ :=
  let n : ℚ := ys.length
  let xs : List ℚ := (List.range ys.length).map (fun j => (j : ℚ))
  let sx := xs.sum
  let sy := ys.sum
  let sxy := ((xs.zip ys).map (fun p => p.1 * p.2)).sum
  let sxx := (xs.map (fun x => x * x)).sum
  (n * sxy - sx * sy) / (n * sxx - sx * sx)

/-- `is_ma_trending_up`: false when the series is shorter than the
lookback; otherwise fits a least-squares line through the last
`lookback` entries (`ma.iloc[-lookback:]`) and tests `slope > 0`.
When that window still contains a `NaN` entry the fitted slope is
`NaN` and the strict comparison is false. -/
def is_ma_trending_up (ma : List (Option ℚ)) (lookback : ℕ) : Bool :=
  if ma.length < lookback then false
  else
    match allSome (ma.drop (ma.length - lookback)) with
    | none => false
    | some ys => decide (0 < ols_slope ys)

/-- `check_bottom_cross_ma200`: the chained comparison
`low <= ma200 < close`. -/
def check_bottom_cross_ma200 (low close ma200 : ℚ) : Bool :=
  decide (low ≤ ma200) && decide (ma200 < close)

/-- `check_golden_cross`: false when either series has fewer than two
entries, otherwise compares the last two points of each
(`iloc[-2]`/`iloc[-1]`), with `NaN`-aware comparisons. -/
def check_golden_cross (ma_short ma_long : List (Option ℚ)) : Bool :=
  if ma_short.length < 2 ∨ ma_long.length < 2 then false
  else
    let prev_short := iget ma_short (ma_short.length - 2)
    let prev_long := iget ma_long (ma_long.length - 2)
    let curr_short := iget ma_short (ma_short.length - 1)
    let curr_long := iget ma_long (ma_long.length - 1)
    optLt prev_short prev_long && optGe curr_short curr_long

/-- `data.index.get_loc(d)` on a unique, strictly increasing date
index: the position of the bar dated `d`, `none` when no such bar
exists (in which case the Python call raises `KeyError`, swallowed by
the caller's `except`). -/
def indexOfDate : List PricePoint → ℕ → Option ℕ
  | [], _ => none
  | p :: rest, d =>
    if p.date = d then some 0 else (indexOfDate rest d).map (· + 1)

/-- Close price of bar `i`, with an irrelevant default for
out-of-range `i` (every use is guarded by an index bound). -/
def closeAt (data : List PricePoint) (i : ℕ) : ℚ :=
  ((data[i]?).map (fun p => p.close)).getD 0

/-- One iteration of the `calculate_win_rate` loop: skip a date that is
not in the index, skip a date whose forward window runs past the end of
the series, and otherwise bump the win counter on a strictly greater
exit close and the total counter unconditionally. -/
def winStep (data : List PricePoint) (forward_days : ℕ)
    (wt : ℕ × ℕ) (d : ℕ) : ℕ × ℕ :=
  match indexOfDate data d with
  | none => wt
  | some i =>
    if i + forward_days < data.length then
      if closeAt data i < closeAt data (i + forward_days) then
        (wt.1 + 1, wt.2 + 1)
      else
        (wt.1, wt.2 + 1)
    else wt

/-- `calculate_win_rate`: folds `winStep` over the signal dates and
returns `wins / total * 100`, or `0.0` when nothing was evaluated
(including the early return on an empty date list). -/
def calculate_win_rate (data : List PricePoint) (signal_dates : List ℕ)
    (forward_days : ℕ) : ℚ :=
  if signal_dates.isEmpty then 0
  else
    let wt := signal_dates.foldl (winStep data forward_days) (0, 0)
    if 0 < wt.2 then (wt.1 : ℚ) / (wt.2 : ℚ) * 100 else 0

/-- The liquidity risk tag attached to an accepted symbol, keyed on the
30-day average traded value: `🟢安定` is the "stable" tier, `🟡標準` the
"standard" tier, `🔴冒険` the "speculative" tier. -/
def risk_tag (avg : ℚ) : String :=
  if 100000000 ≤ avg then "🟢安定"
  else if 10000000 ≤ avg then "🟡標準"
  else "🔴冒険"

/-- A signal date counts toward the backtest denominator when it is
found in the series and its forward window fits inside the series
(the spec's evaluation condition for `winRate`). -/
def isEvaluated (data : List PricePoint) (forward_days d : ℕ) : Bool :=
  match indexOfDate data d with
  | some i => decide (i + forward_days < data.length)
  | none => false

/-- An evaluated signal date is a win when the close `forward_days`
bars later is strictly greater than the close at the signal
(the spec's win condition for `winRate`). -/
def isWin (data : List PricePoint) (forward_days d : ℕ) : Bool :=
  match indexOfDate data d with
  | some i => decide (closeAt data i < closeAt data (i + forward_days))
  | none => false

/-- The signal dates the backtest evaluates, per the spec's words:
exactly those found in the series whose forward window fits. -/
def evaluatedDates (data : List PricePoint) (signal_dates : List ℕ)
    (forward_days : ℕ) : List ℕ :=
  signal_dates.filter (isEvaluated data forward_days)

/-- The evaluated dates that are wins, per the spec's words. -/
def winningDates (data : List PricePoint) (signal_dates : List ℕ)
    (forward_days : ℕ) : List ℕ :=
  (evaluatedDates data signal_dates forward_days).filter
    (isWin data forward_days)

/-- The spec's description of `winRate` (§4.5), written independently
of the loop in the code: `wins / evaluated × 100` over the evaluated
dates, and `0.0` when nothing was evaluated. -/
def winRate_spec (data : List PricePoint) (signal_dates : List ℕ)
    (forward_days : ℕ) : ℚ :=
  let evaluated := (evaluatedDates data signal_dates forward_days).length
  let wins := (winningDates data signal_dates forward_days).length
  if evaluated = 0 then 0 else (wins : ℚ) / (evaluated : ℚ) * 100

/-- The record returned for an accepted symbol: code, display name,
latest close, trend label, the two signal flags (rendered as the same
marker strings the code uses), the 30-day average traded value, the
liquidity risk tag, and the as-of date. -/
structure SignalResult where
  code : String
  name : String
  price : ℚ
  ma200_trend : String
  bottom_cross : String
  golden_cross : String
  avg_volume_30d : ℚ
  risk_tag : String
  date : ℕ
deriving Repr, DecidableEq

/-- The screener's working `DataFrame`: the supplied price series plus
the derived columns the code attaches to it while screening
(`Volume_Yen`, `MA50`, `MA100`, `MA200`). -/
structure Frame where
  points : List PricePoint
  extraCols : List (String × List (Option ℚ))
deriving Repr

/-- The `Close` column of the series. -/
def closes (data : List PricePoint) : List ℚ :=
  data.map (fun p => p.close)

/-- The `Volume_Yen` column: `Close * Volume` per bar. -/
def volume_yen (data : List PricePoint) : List ℚ :=
  data.map (fun p => p.close * p.volume)

/-- `data['Volume_Yen'].tail(30).mean()`: the mean of the traded value
over the trailing (up to) 30 bars. -/
def avg_volume_30d (data : List PricePoint) : ℚ :=
  let t := (volume_yen data).drop ((volume_yen data).length - 30)
  t.sum / (t.length : ℚ)

/-- The bottom-cross check on the final row: the latest low and close
against the latest `MA200` entry.  When that entry is `NaN` both
comparisons in `check_bottom_cross_ma200` are IEEE-false, so the check
is false. -/
def latest_bottom_cross (data : List PricePoint) : Bool :=
  match data.getLast?,
      iget (calculate_ma (closes data) 200) (data.length - 1) with
  | some latest, some m => check_bottom_cross_ma200 latest.low latest.close m
  | _, _ => false

/-- `screen_stock`, stated over the working frame so that the column
assignments are explicit: rejects on short history, then on low
30-day average traded value, then on a non-rising `MA200`, then on
having neither signal; otherwise produces the `SignalResult`.  Every
rejection is a plain `none`, never an error (the code wraps the body
in a catch-all `except` returning `None`). -/
def screen_stock_frame (f : Frame) (code name : String) (min_volume : ℚ) :
    Option SignalResult × Frame :=
  let data := f.points
  if data.length < 200 then (none, f)
  else
    let f1 : Frame :=
      ⟨f.points, f.extraCols ++ [("Volume_Yen", (volume_yen data).map some)]⟩
    let avg := avg_volume_30d data
    if avg < min_volume then (none, f1)
    else
      let ma50 := calculate_ma (closes data) 50
      let ma100 := calculate_ma (closes data) 100
      let ma200 := calculate_ma (closes data) 200
      let f2 : Frame :=
        ⟨f1.points,
          f1.extraCols ++ [("MA50", ma50), ("MA100", ma100), ("MA200", ma200)]⟩
      if is_ma_trending_up ma200 5 then
        let bottom := latest_bottom_cross data
        let golden := check_golden_cross ma50 ma100
        match data.getLast? with
        | some latest =>
          if bottom || golden then
            (some { code := code, name := name, price := latest.close,
                    ma200_trend := "上昇",
                    bottom_cross := if bottom then "✅" else "—",
                    golden_cross := if golden then "✅" else "—",
                    avg_volume_30d := avg,
                    risk_tag := risk_tag avg,
                    date := latest.date }, f2)
          else (none, f2)
        | none => (none, f2)
      else (none, f2)

/-- Screening a symbol from a supplied series: the optional result of
the frame computation. -/
def screen_stock (data : List PricePoint) (code name : String)
    (min_volume : ℚ) : Option SignalResult :=
  (screen_stock_frame ⟨data, []⟩ code name min_volume).1

/-- A contiguous slice of a list, rewritten as a lookup over its index
range. -/
theorem take_drop_eq_map_range (l : List ℚ) (a b : ℕ) (h : a + b ≤ l.length) :
    (l.take (a + b)).drop a = (List.range b).map (fun j => l.getD (a + j) 0) := by
  apply List.ext_getElem
  · simp only [List.length_drop, List.length_take, List.length_map,
      List.length_range]
    omega
  · intro i h1 h2
    simp only [List.length_drop, List.length_take] at h1
    have ha : a + i < (l.take (a + b)).length := by
      simp only [List.length_take]; omega
    have hb : a + i < l.length := by omega
    rw [List.getElem_drop]
    rw [List.getElem_map, List.getElem_range]
    rw [List.getElem_take]
    rw [List.getD_eq_getElem l 0 hb]

/-- Entry `i` of `calculate_ma`, unfolded. -/
theorem calculate_ma_get (prices : List ℚ) (P i : ℕ) (h : i < prices.length) :
    iget (calculate_ma prices P) i =
      if P ≤ i + 1 ∧ 0 < P then
        some ((((prices.take (i + 1)).drop (i + 1 - P)).sum) / (P : ℚ))
      else none := by
  unfold iget calculate_ma
  rw [List.getElem?_map]
  rw [List.getElem?_range h]
  by_cases hc : P ≤ i + 1 ∧ 0 < P
  · simp [hc]
  · simp [hc]

/-- C5: `bottomCross(low, close, ma200)` is true iff `low ≤ ma200` and
`close > ma200`; in particular a close exactly equal to the average is
rejected. -/
theorem check_bottom_cross_spec (low close ma200 : ℚ) :
    (check_bottom_cross_ma200 low close ma200 = true ↔
      low ≤ ma200 ∧ close > ma200) ∧
    check_bottom_cross_ma200 low ma200 ma200 = false := by
  constructor
  · simp only [check_bottom_cross_ma200, Bool.and_eq_true, decide_eq_true_eq,
      gt_iff_lt]
  · simp [check_bottom_cross_ma200]

/-- C7: the liquidity classification maps `≥ 10^8` to the stable tier,
`[10^7, 10^8)` to the standard tier, and everything below `10^7` to the
speculative tier, with inclusive lower bounds. -/
theorem risk_tag_spec (avg : ℚ) :
    (risk_tag avg = "🟢安定" ↔ 100000000 ≤ avg) ∧
    (risk_tag avg = "🟡標準" ↔ 10000000 ≤ avg ∧ avg < 100000000) ∧
    (risk_tag avg = "🔴冒険" ↔ avg < 10000000) := by
  by_cases h1 : (100000000 : ℚ) ≤ avg
  · refine ⟨by simp [risk_tag, h1], ?_, ?_⟩
    · simp only [risk_tag, if_pos h1]
      constructor
      · intro h; exact absurd h (by decide)
      · rintro ⟨-, h2⟩; exact absurd h1 (not_le.mpr h2)
    · simp only [risk_tag, if_pos h1]
      constructor
      · intro h; exact absurd h (by decide)
      · intro h2; exact absurd h1 (not_le.mpr (h2.trans (by norm_num)))
  · by_cases h2 : (10000000 : ℚ) ≤ avg
    · refine ⟨?_, ?_, ?_⟩
      · simp only [risk_tag, if_neg h1, if_pos h2]
        constructor
        · intro h; exact absurd h (by decide)
        · intro h; exact absurd h h1
      · simp [risk_tag, h1, h2, not_le.mp h1]
      · simp only [risk_tag, if_neg h1, if_pos h2]
        constructor
        · intro h; exact absurd h (by decide)
        · intro h; exact absurd h2 (not_le.mpr h)
    · refine ⟨?_, ?_, by simp [risk_tag, h1, h2, not_le.mp h2]⟩
      · simp only [risk_tag, if_neg h1, if_neg h2]
        constructor
        · intro h; exact absurd h (by decide)
        · intro h; exact absurd h h1
      · simp only [risk_tag, if_neg h1, if_neg h2]
        constructor
        · intro h; exact absurd h (by decide)
        · rintro ⟨h, -⟩; exact absurd h h2

/-- C2: for `1 ≤ P ≤ length(series)`, `compute(series, P)` returns a
series of equal length in which exactly the first `P-1` entries are
undefined, and entry `i ≥ P-1` is the arithmetic mean of the closes at
indices `i-P+1 .. i`. -/
theorem calculate_ma_spec (prices : List ℚ) (P : ℕ) (h1 : 1 ≤ P)
    (_h2 : P ≤ prices.length) :
    (calculate_ma prices P).length = prices.length ∧
    (∀ i, i < prices.length →
      (iget (calculate_ma prices P) i = none ↔ i < P - 1)) ∧
    (∀ i, P - 1 ≤ i → i < prices.length →
      iget (calculate_ma prices P) i =
        some ((((List.range P).map
          (fun j => prices.getD (i + 1 - P + j) 0)).sum) / (P : ℚ))) := by
  refine ⟨by simp [calculate_ma], ?_, ?_⟩
  · intro i hi
    rw [calculate_ma_get prices P i hi]
    by_cases hc : P ≤ i + 1 ∧ 0 < P
    · simp only [if_pos hc]
      constructor
      · intro h; exact absurd h (by simp)
      · intro h; omega
    · simp only [if_neg hc]
      constructor
      · intro _; omega
      · intro _; trivial
  · intro i hPi hi
    have hc : P ≤ i + 1 ∧ 0 < P := by omega
    rw [calculate_ma_get prices P i hi, if_pos hc]
    have hab : (i + 1 - P) + P = i + 1 := by omega
    have hle : (i + 1 - P) + P ≤ prices.length := by omega
    rw [show prices.take (i + 1) = prices.take ((i + 1 - P) + P) by rw [hab]]
    rw [take_drop_eq_map_range prices (i + 1 - P) P hle]

/-- Witness for C2 at the concrete series `[1, 2, 4]` with `P = 2`. -/
theorem calculate_ma_spec_witness :
    (calculate_ma [(1 : ℚ), 2, 4] 2).length =
      ([(1 : ℚ), 2, 4] : List ℚ).length ∧
    (∀ i, i < ([(1 : ℚ), 2, 4] : List ℚ).length →
      (iget (calculate_ma [(1 : ℚ), 2, 4] 2) i = none ↔ i < 2 - 1)) ∧
    (∀ i, 2 - 1 ≤ i → i < ([(1 : ℚ), 2, 4] : List ℚ).length →
      iget (calculate_ma [(1 : ℚ), 2, 4] 2) i =
        some ((((List.range 2).map
          (fun j => ([(1 : ℚ), 2, 4] : List ℚ).getD (i + 1 - 2 + j) 0)).sum) /
            (2 : ℚ))) :=
  calculate_ma_spec [1, 2, 4] 2 (by decide) (by decide)

/-- C8 counterexample: `compute` with period `0` does not fail — the
rolling-window validation only rejects negative windows, so period `0`
returns an (all-undefined) series. -/
theorem calculate_ma_checked_c8_counterexample :
    (0 : ℤ) ≤ 0 ∧
    calculate_ma_checked [(1 : ℚ)] 0 = Except.ok [none] := by
  constructor
  · decide
  · rfl

/-- C8 amended: `compute(series, period)` fails with the window
validation error exactly for `period < 0`; at `period = 0` it instead
returns a series of the input's length with every entry undefined. -/
theorem calculate_ma_checked_amended (prices : List ℚ) (period : ℤ) :
    (period < 0 →
      calculate_ma_checked prices period =
        Except.error "window must be an integer 0 or greater") ∧
    calculate_ma_checked prices 0 =
      Except.ok (List.replicate prices.length none) := by
  constructor
  · intro h
    simp [calculate_ma_checked, h]
  · simp only [calculate_ma_checked]
    rw [if_neg (by omega)]
    refine congrArg Except.ok (List.eq_replicate_iff.mpr ⟨by simp [calculate_ma], ?_⟩)
    intro b hb
    simp only [calculate_ma, Int.toNat_zero, List.mem_map, List.mem_range] at hb
    obtain ⟨i, -, hi⟩ := hb
    simpa using hi.symm

/-- Witness for the amended C8 at `series = [1]`, `period = -1` and
`period = 0`. -/
theorem calculate_ma_checked_amended_witness :
    ((-1 : ℤ) < 0 ∧
      calculate_ma_checked [(1 : ℚ)] (-1) =
        Except.error "window must be an integer 0 or greater") ∧
    calculate_ma_checked [(1 : ℚ)] 0 =
      Except.ok (List.replicate ([(1 : ℚ)] : List ℚ).length none) :=
  ⟨⟨by decide, (calculate_ma_checked_amended [1] (-1)).1 (by decide)⟩,
    (calculate_ma_checked_amended [1] 0).2⟩

/-- A fully defined window is accepted by `allSome`. -/
theorem allSome_map_some (ys : List ℚ) : allSome (ys.map some) = some ys := by
  induction ys with
  | nil => rfl
  | cons y rest ih => simp [allSome, ih]

/-- A window that still starts inside the undefined prefix is rejected
by `allSome`. -/
theorem allSome_replicate_append (m : ℕ) (l : List (Option ℚ)) :
    allSome (List.replicate (m + 1) none ++ l) = none := by
  rfl

/-- C3: on a moving-average series made of an undefined prefix followed
by the defined values `ys`, `isTrendingUp` returns false whenever fewer
than `lookback` defined values exist, and otherwise returns true
exactly when the least-squares slope of the last `lookback` defined
values is strictly positive. -/
theorem is_ma_trending_up_spec (ys : List ℚ) (k lookback : ℕ) :
    (ys.length < lookback →
      is_ma_trending_up (List.replicate k none ++ ys.map some) lookback
        = false) ∧
    (lookback ≤ ys.length →
      (is_ma_trending_up (List.replicate k none ++ ys.map some) lookback
          = true ↔
        0 < ols_slope (ys.drop (ys.length - lookback)))) := by
  have hlen : (List.replicate k (none : Option ℚ) ++ ys.map some).length
      = k + ys.length := by simp
  constructor
  · intro hshort
    unfold is_ma_trending_up
    by_cases hguard :
        (List.replicate k (none : Option ℚ) ++ ys.map some).length < lookback
    · rw [if_pos hguard]
    · rw [if_neg hguard]
      rw [hlen] at hguard
      have hk : 0 < k := by omega
      have hd : k + ys.length - lookback ≤ k := by omega
      have hdrop :
          (List.replicate k (none : Option ℚ) ++ ys.map some).drop
              ((List.replicate k (none : Option ℚ) ++ ys.map some).length
                - lookback)
            = List.replicate (k - (k + ys.length - lookback)) none
                ++ ys.map some := by
        rw [hlen, List.drop_append_of_le_length (by simpa using hd)]
        rw [List.drop_replicate]
      rw [hdrop]
      have hm : ∃ m, k - (k + ys.length - lookback) = m + 1 := by
        refine ⟨k - (k + ys.length - lookback) - 1, ?_⟩
        omega
      obtain ⟨m, hm⟩ := hm
      rw [hm, allSome_replicate_append]
  · intro hlong
    unfold is_ma_trending_up
    have hguard :
        ¬ (List.replicate k (none : Option ℚ) ++ ys.map some).length
          < lookback := by omega
    rw [if_neg hguard]
    have hdrop :
        (List.replicate k (none : Option ℚ) ++ ys.map some).drop
            ((List.replicate k (none : Option ℚ) ++ ys.map some).length
              - lookback)
          = (ys.drop (ys.length - lookback)).map some := by
      have hsplit :
          (List.replicate k (none : Option ℚ) ++ ys.map some).length - lookback
            = (List.replicate k (none : Option ℚ)).length
              + (ys.length - lookback) := by
        simp only [List.length_append, List.length_replicate, List.length_map]
        omega
      rw [hsplit, List.drop_append, List.map_drop]
    rw [hdrop, allSome_map_some]
    simp

/-- Witness for C3: a series with one undefined entry and five defined
values, with lookback 5. -/
theorem is_ma_trending_up_spec_witness :
    (5 : ℕ) ≤ ([(1 : ℚ), 2, 3, 4, 5] : List ℚ).length ∧
    (is_ma_trending_up
        (List.replicate 1 none ++ ([(1 : ℚ), 2, 3, 4, 5] : List ℚ).map some) 5
        = true ↔
      0 < ols_slope (([(1 : ℚ), 2, 3, 4, 5] : List ℚ).drop
        (([(1 : ℚ), 2, 3, 4, 5] : List ℚ).length - 5))) :=
  ⟨by decide, (is_ma_trending_up_spec [1, 2, 3, 4, 5] 1 5).2 (by decide)⟩

/-- Looking up the second-to-last entry of a series ending in two
given values. -/
theorem iget_append_penultimate (l : List (Option ℚ)) (x y : Option ℚ) :
    iget (l ++ [x, y]) ((l ++ [x, y]).length - 2) = x := by
  unfold iget
  have hlen : (l ++ [x, y]).length - 2 = l.length := by simp
  rw [hlen, List.getElem?_append_right (le_refl _)]
  simp

/-- Looking up the last entry of a series ending in two given
values. -/
theorem iget_append_last (l : List (Option ℚ)) (x y : Option ℚ) :
    iget (l ++ [x, y]) ((l ++ [x, y]).length - 1) = y := by
  unfold iget
  have hlen : (l ++ [x, y]).length - 1 = l.length + 1 := by simp
  rw [hlen, List.getElem?_append_right (by omega)]
  simp

/-- C4: on two moving-average series whose last two entries are all
defined (`a, b` for the short average, `c, d` for the long one),
`goldenCross` is true exactly when the previous short value is strictly
below the previous long value and the current short value is at or
above the current long value; in particular a short average already at
or above the long average on the previous day yields false. -/
theorem check_golden_cross_spec (s0 l0 : List (Option ℚ)) (a b c d : ℚ) :
    check_golden_cross (s0 ++ [some a, some b]) (l0 ++ [some c, some d])
      = true ↔ a < c ∧ d ≤ b := by
  unfold check_golden_cross
  rw [if_neg (by simp)]
  rw [iget_append_penultimate, iget_append_penultimate,
    iget_append_last, iget_append_last]
  simp [optLt, optGe]

/-- The `calculate_win_rate` fold counts exactly the winning and the
evaluated dates. -/
theorem win_rate_foldl (data : List PricePoint) (fwd : ℕ) :
    ∀ (dates : List ℕ) (w t : ℕ),
      dates.foldl (winStep data fwd) (w, t)
        = (w + (winningDates data dates fwd).length,
           t + (evaluatedDates data dates fwd).length) := by
  intro dates
  induction dates with
  | nil => intro w t; simp [winningDates, evaluatedDates]
  | cons d rest ih =>
    intro w t
    simp only [List.foldl_cons]
    rcases hidx : indexOfDate data d with _ | i
    · have hstep : winStep data fwd (w, t) d = (w, t) := by
        simp [winStep, hidx]
      have hEv : isEvaluated data fwd d = false := by
        simp [isEvaluated, hidx]
      rw [hstep, ih]
      simp [winningDates, evaluatedDates, List.filter_cons, hEv]
    · by_cases hin : i + fwd < data.length
      · have hEv : isEvaluated data fwd d = true := by
          simp [isEvaluated, hidx, hin]
        by_cases hwin : closeAt data i < closeAt data (i + fwd)
        · have hstep : winStep data fwd (w, t) d = (w + 1, t + 1) := by
            simp [winStep, hidx, hin, hwin]
          have hW : isWin data fwd d = true := by
            simp [isWin, hidx, hwin]
          rw [hstep, ih]
          simp only [winningDates, evaluatedDates, List.filter_cons, hEv,
            hW, if_true, List.length_cons]
          simp only [Prod.mk.injEq]
          omega
        · have hstep : winStep data fwd (w, t) d = (w, t + 1) := by
            simp [winStep, hidx, hin, hwin]
          have hW : isWin data fwd d = false := by
            simp [isWin, hidx, hwin]
          rw [hstep, ih]
          unfold winningDates evaluatedDates
          rw [List.filter_cons_of_pos hEv,
            List.filter_cons_of_neg (by simp [hW])]
          simp only [List.length_cons, Prod.mk.injEq]
          exact ⟨trivial, by omega⟩
      · have hstep : winStep data fwd (w, t) d = (w, t) := by
          simp [winStep, hidx, hin]
        have hEv : isEvaluated data fwd d = false := by
          simp [isEvaluated, hidx, hin]
        rw [hstep, ih]
        simp [winningDates, evaluatedDates, List.filter_cons, hEv]

/-- C6: `winRate` evaluates exactly the signal dates found in the
series whose forward window fits, counts a win exactly on a strictly
greater exit close, excludes the other dates from the denominator, and
returns `wins / evaluated × 100` with `0.0` for an empty
denominator. -/
theorem calculate_win_rate_eq_spec (data : List PricePoint)
    (signal_dates : List ℕ) (forward_days : ℕ) :
    calculate_win_rate data signal_dates forward_days
      = winRate_spec data signal_dates forward_days := by
  unfold calculate_win_rate winRate_spec
  cases signal_dates with
  | nil => simp [winningDates, evaluatedDates]
  | cons d rest =>
    rw [if_neg (by simp)]
    rw [win_rate_foldl]
    simp only [Nat.zero_add]
    by_cases hE : (evaluatedDates data (d :: rest) forward_days).length = 0
    · rw [if_pos hE, if_neg (by omega)]
    · rw [if_neg hE, if_pos (by omega)]

/-- `screen_stock` produces a result exactly when the four acceptance
conditions hold (shared characterization lemma). -/
theorem screen_stock_isSome_iff (data : List PricePoint)
    (code name : String) (min_volume : ℚ) :
    (screen_stock data code name min_volume).isSome = true ↔
      (200 ≤ data.length ∧
       min_volume ≤ avg_volume_30d data ∧
       is_ma_trending_up (calculate_ma (closes data) 200) 5 = true ∧
       (latest_bottom_cross data = true ∨
        check_golden_cross (calculate_ma (closes data) 50)
          (calculate_ma (closes data) 100) = true)) := by
  simp only [screen_stock, screen_stock_frame]
  by_cases h1 : data.length < 200
  · rw [if_pos h1]
    simp only [Option.isSome_none, Bool.false_eq_true, false_iff]
    rintro ⟨hA, -⟩
    omega
  · rw [if_neg h1]
    by_cases h2 : avg_volume_30d data < min_volume
    · rw [if_pos h2]
      simp only [Option.isSome_none, Bool.false_eq_true, false_iff]
      rintro ⟨-, hB, -⟩
      exact absurd hB (not_le.mpr h2)
    · rw [if_neg h2]
      by_cases h3 :
          is_ma_trending_up (calculate_ma (closes data) 200) 5 = true
      · rw [if_pos h3]
        have hne : data ≠ [] := by
          intro h
          rw [h] at h1
          simp at h1
        obtain ⟨latest, hlast⟩ :
            ∃ latest, data.getLast? = some latest := by
          cases hgl : data.getLast? with
          | none => exact absurd (List.getLast?_eq_none_iff.mp hgl) hne
          | some x => exact ⟨x, rfl⟩
        rw [hlast]
        dsimp only
        by_cases h4 :
            (latest_bottom_cross data ||
              check_golden_cross (calculate_ma (closes data) 50)
                (calculate_ma (closes data) 100)) = true
        · rw [if_pos h4]
          simp only [Option.isSome_some, true_iff]
          exact ⟨by omega, not_lt.mp h2, h3, by simpa [Bool.or_eq_true] using h4⟩
        · rw [if_neg h4]
          simp only [Option.isSome_none, Bool.false_eq_true, false_iff]
          rintro ⟨-, -, -, hD⟩
          exact h4 (by simpa [Bool.or_eq_true] using hD)
      · rw [if_neg h3]
        simp only [Option.isSome_none, Bool.false_eq_true, false_iff]
        rintro ⟨-, -, hC, -⟩
        exact h3 hC

/-- C1: `screen(series, name, minVolumeThreshold)` produces exactly one
`SignalResult` iff the series has at least 200 bars, the trailing-30
average traded value meets the threshold, the 200-period moving
average is trending up per `isTrendingUp` with lookback 5, and at
least one of the bottom-cross or golden-cross signals holds; in every
other case it produces no result (and, being a total function whose
Python original catches every exception, raises no error). -/
theorem screen_accept_iff (data : List PricePoint) (code name : String)
    (min_volume : ℚ) :
    (screen_stock data code name min_volume).isSome = true ↔
      (200 ≤ data.length ∧
       min_volume ≤ avg_volume_30d data ∧
       is_ma_trending_up (calculate_ma (closes data) 200) 5 = true ∧
       (latest_bottom_cross data = true ∨
        check_golden_cross (calculate_ma (closes data) 50)
          (calculate_ma (closes data) 100) = true)) :=
  screen_stock_isSome_iff data code name min_volume

/-- C9: screening leaves the supplied price series unchanged — the
screener only ever appends derived columns to the working frame, so
the `PriceSeries` projection of the frame after a call is the series
that was passed in. -/
theorem screen_preserves_points (f : Frame) (code name : String)
    (min_volume : ℚ) :
    (screen_stock_frame f code name min_volume).2.points = f.points := by
  simp only [screen_stock_frame]
  by_cases h1 : f.points.length < 200
  · rw [if_pos h1]
  · rw [if_neg h1]
    by_cases h2 : avg_volume_30d f.points < min_volume
    · rw [if_pos h2]
    · rw [if_neg h2]
      by_cases h3 :
          is_ma_trending_up (calculate_ma (closes f.points) 200) 5 = true
      · rw [if_pos h3]
        cases hgl : f.points.getLast? with
        | none => rfl
        | some latest =>
          dsimp only
          by_cases h4 :
              (latest_bottom_cross f.points ||
                check_golden_cross (calculate_ma (closes f.points) 50)
                  (calculate_ma (closes f.points) 100)) = true
          · rw [if_pos h4]
          · rw [if_neg h4]
      · rw [if_neg h3]

/-- A series containing an undefined entry is rejected by
`allSome`. -/
theorem allSome_eq_none_of_mem (l : List (Option ℚ)) (h : none ∈ l) :
    allSome l = none := by
  induction l with
  | nil => simp at h
  | cons x rest ih =>
    cases x with
    | none => rfl
    | some v =>
      rcases List.mem_cons.mp h with h' | h'
      · exact absurd h' (by simp)
      · simp [allSome, ih h']

/-- On a series of 200 to 203 bars the 200-period moving average has at
most 4 defined values, so its last-5 window still contains an
undefined entry and the trend check is false. -/
theorem ma200_not_trending_of_short (data : List PricePoint)
    (h1 : 200 ≤ data.length) (h2 : data.length ≤ 203) :
    is_ma_trending_up (calculate_ma (closes data) 200) 5 = false := by
  have hlen : (calculate_ma (closes data) 200).length = data.length := by
    simp [calculate_ma, closes]
  have hmem : (none : Option ℚ) ∈
      (calculate_ma (closes data) 200).drop (data.length - 5) := by
    have hq : ((calculate_ma (closes data) 200).drop (data.length - 5))[0]?
        = some none := by
      rw [List.getElem?_drop]
      simp only [Nat.add_zero, calculate_ma]
      rw [List.getElem?_map]
      rw [List.getElem?_range (by simp only [closes, List.length_map]; omega)]
      simp only [Option.map_some']
      rw [if_neg (by omega)]
    exact List.getElem?_mem hq
  unfold is_ma_trending_up
  rw [hlen]
  rw [if_neg (by omega)]
  rw [allSome_eq_none_of_mem _ hmem]

/-- C10: a series of 200 to 203 bars clears the 200-bar history gate
but is still rejected by `screen`, because the 200-period moving
average then has fewer than 5 defined values and the lookback-5 trend
check cannot succeed. -/
theorem screen_short_history_rejected (data : List PricePoint)
    (code name : String) (min_volume : ℚ)
    (h1 : 200 ≤ data.length) (h2 : data.length ≤ 203) :
    screen_stock data code name min_volume = none := by
  rw [← Option.not_isSome_iff_eq_none]
  intro hs
  obtain ⟨-, -, hC, -⟩ :=
    (screen_stock_isSome_iff data code name min_volume).mp hs
  rw [ma200_not_trending_of_short data h1 h2] at hC
  exact Bool.false_ne_true hC

/-- Witness for C10: a constant 200-bar series is rejected. -/
theorem screen_short_history_rejected_witness :
    200 ≤ (List.replicate 200 (⟨0, 1, 1, 1, 1, 1⟩ : PricePoint)).length ∧
    (List.replicate 200 (⟨0, 1, 1, 1, 1, 1⟩ : PricePoint)).length ≤ 203 ∧
    screen_stock (List.replicate 200 (⟨0, 1, 1, 1, 1, 1⟩ : PricePoint))
      "7203" "7203" 1000000 = none :=
  ⟨by rw [List.length_replicate], by rw [List.length_replicate]; omega,
    screen_short_history_rejected _ "7203" "7203" 1000000
      (by rw [List.length_replicate]) (by rw [List.length_replicate]; omega)⟩
